import Mathlib

/-!
# Verification of the WhatsAppSimulator secure-messaging relay

A shallow embedding of the repository's core components:

* `whatsapp_client.py` — hybrid end-to-end encryption
  (`encrypt_message` / `decrypt_message`);
* `services/connection-service/app.py` — `ConnectionManager`
  (connect / disconnect / send_personal_message), the outgoing-topic
  consumer loop and the websocket publish path;
* `services/chat-processor/app.py` — `process_messages` (one message),
  i.e. the at-rest envelope-encryption pipeline;
* `services/auth_middleware.py` — `ServiceAuthenticator.verify_token`;
* `services/key-service/app.py` — `upload_key`.

Python byte strings and Python `str` values are both modelled as
`List Nat` (byte / code-point lists); JSON-ish dict values are the
inductive type `Val`.  The AES block cipher and RSA-OAEP are external
library primitives and enter the development as abstract keyed
functions with explicit inverse hypotheses; CBC chaining, PKCS#7
padding and base64 are implemented concretely, following the exact
byte manipulations of the source.
-/

set_option autoImplicit false

namespace WhatsAppSim

/-- A JSON-ish Python value: a string (sequence of code points / bytes)
or a dict with string keys.  Only these two shapes occur in the
messages the services exchange. -/
inductive Val where
  | vstr : List Nat → Val
  | vobj : List (String × Val) → Val

mutual

/-- Python `==` on the values modelled here. -/
def Val.beq : Val → Val → Bool
  | .vstr s, .vstr t => s == t
  | .vobj fs, .vobj gs => beqFields fs gs
  | _, _ => false

/-- Python `==` on dict field lists. -/
def beqFields : List (String × Val) → List (String × Val) → Bool
  | [], [] => true
  | (k, v) :: r, (k2, v2) :: r2 => k == k2 && Val.beq v v2 && beqFields r r2
  | _, _ => false

end

/-- Python `==` where either side may be `None`. -/
def beqO : Option Val → Option Val → Bool
  | none, none => true
  | some v, some w => Val.beq v w
  | _, _ => false

/-- `d[k]` lookup on a Python-dict field list: first entry with the key. -/
def getF : List (String × Val) → String → Option Val
  | [], _ => none
  | (k, v) :: rest, key => if k = key then some v else getF rest key

/-- `data.get(k)` / `data[k]` on a `Val`: `none` for a missing key or a
non-dict receiver (Python would raise `KeyError` / `TypeError`). -/
def Val.get : Val → String → Option Val
  | .vstr _, _ => none
  | .vobj fs, key => getF fs key

/-- Python dict assignment `d[k] = v`: overwrite in place if the key is
present, append otherwise. -/
def setF : List (String × Val) → String → Val → List (String × Val)
  | [], key, v => [(key, v)]
  | (k, w) :: rest, key, v =>
    if k = key then (key, v) :: rest else (k, w) :: setF rest key v

/-- Python truthiness of the values that occur here: a string or dict is
truthy iff non-empty. -/
def Val.truthy : Val → Bool
  | .vstr [] => false
  | .vstr (_ :: _) => true
  | .vobj [] => false
  | .vobj (_ :: _) => true

/-- Truthiness of a `dict.get` result (`None` is falsy). -/
def truthyO : Option Val → Bool
  | none => false
  | some v => v.truthy

/-- View a `Val` as a Python `str`; `none` when the operation the source
performs on it (`.encode()`, string comparison, …) would need a string. -/
def Val.asStr : Val → Option (List Nat)
  | .vstr s => some s
  | .vobj _ => none

/-! ## Generic association maps (Python dicts with non-`String` keys)

The connection registry is a dict keyed by the user id (a string,
modelled as `List Nat`). -/

/-- Dict lookup. -/
def lookupD {κ α : Type} [DecidableEq κ] : List (κ × α) → κ → Option α
  | [], _ => none
  | (k, v) :: rest, key => if k = key then some v else lookupD rest key

/-- Dict assignment `d[k] = v`. -/
def updateD {κ α : Type} [DecidableEq κ] : List (κ × α) → κ → α → List (κ × α)
  | [], key, v => [(key, v)]
  | (k, w) :: rest, key, v =>
    if k = key then (key, v) :: rest else (k, w) :: updateD rest key v

/-- Dict deletion `del d[k]` (the key occurs at most once in a dict). -/
def eraseD {κ α : Type} [DecidableEq κ] : List (κ × α) → κ → List (κ × α)
  | [], _ => []
  | (k, v) :: rest, key => if k = key then rest else (k, v) :: eraseD rest key

/-! ## base64 (`base64.b64encode` / `base64.b64decode`)

Standard alphabet, `=` (code 61) padding, operating on byte lists. -/

/-- The base64 alphabet: sextet value to ASCII code. -/
def b64chr (n : Nat) : Nat :=
  if n < 26 then 65 + n
  else if n < 52 then 97 + (n - 26)
  else if n < 62 then 48 + (n - 52)
  else if n = 62 then 43
  else 47

/-- ASCII code back to sextet value. -/
def b64val (c : Nat) : Nat :=
  if 65 ≤ c ∧ c ≤ 90 then c - 65
  else if 97 ≤ c ∧ c ≤ 122 then 26 + (c - 97)
  else if 48 ≤ c ∧ c ≤ 57 then 52 + (c - 48)
  else if c = 43 then 62
  else 63

/-- `base64.b64encode` on a byte list, producing ASCII codes. -/
def b64encode : List Nat → List Nat
  | [] => []
  | [a] => [b64chr (a / 4), b64chr (a % 4 * 16), 61, 61]
  | [a, b] => [b64chr (a / 4), b64chr (a % 4 * 16 + b / 16), b64chr (b % 16 * 4), 61]
  | a :: b :: c :: rest =>
    b64chr (a / 4) :: b64chr (a % 4 * 16 + b / 16) ::
      b64chr (b % 16 * 4 + c / 64) :: b64chr (c % 64) :: b64encode rest

/-- `base64.b64decode` on ASCII codes, producing bytes. -/
def b64decode : List Nat → List Nat
  | c1 :: c2 :: c3 :: c4 :: rest =>
    if c3 = 61 then [b64val c1 * 4 + b64val c2 / 16]
    else if c4 = 61 then
      [b64val c1 * 4 + b64val c2 / 16, b64val c2 % 16 * 16 + b64val c3 / 4]
    else
      (b64val c1 * 4 + b64val c2 / 16) :: (b64val c2 % 16 * 16 + b64val c3 / 4) ::
        (b64val c3 % 4 * 64 + b64val c4) :: b64decode rest
  | _ => []

theorem b64val_b64chr : ∀ n < 64, b64val (b64chr n) = n := by decide

theorem b64chr_ne_61 : ∀ n < 64, b64chr n ≠ 61 := by decide

theorem b64chr_lt (n : Nat) : b64chr n < 123 := by
  unfold b64chr
  split
  · omega
  split
  · omega
  split
  · omega
  split
  · omega
  · omega

/-- base64 round-trip: decoding an encoding recovers the bytes. -/
theorem b64_roundtrip : ∀ bs : List Nat, (∀ x ∈ bs, x < 256) →
    b64decode (b64encode bs) = bs := by
  intro bs
  induction bs using b64encode.induct with
  | case1 => intro _; rfl
  | case2 a =>
    intro h
    have ha : a < 256 := h a (by simp)
    have h1 : a / 4 < 64 := by omega
    have h2 : a % 4 * 16 < 64 := by omega
    simp only [b64encode, b64decode, reduceIte]
    rw [b64val_b64chr _ h1, b64val_b64chr _ h2]
    congr 1
    omega
  | case3 a b =>
    intro h
    have ha : a < 256 := h a (by simp)
    have hb : b < 256 := h b (by simp)
    have h1 : a / 4 < 64 := by omega
    have h2 : a % 4 * 16 + b / 16 < 64 := by omega
    have h3 : b % 16 * 4 < 64 := by omega
    simp only [b64encode, b64decode]
    rw [if_neg (b64chr_ne_61 _ h3)]
    simp only [reduceIte]
    rw [b64val_b64chr _ h1, b64val_b64chr _ h2, b64val_b64chr _ h3]
    congr 1
    · omega
    · congr 1
      omega
  | case4 a b c rest ih =>
    intro h
    have ha : a < 256 := h a (by simp)
    have hb : b < 256 := h b (by simp)
    have hc : c < 256 := h c (by simp)
    have h1 : a / 4 < 64 := by omega
    have h2 : a % 4 * 16 + b / 16 < 64 := by omega
    have h3 : b % 16 * 4 + c / 64 < 64 := by omega
    have h4 : c % 64 < 64 := by omega
    simp only [b64encode, b64decode]
    rw [if_neg (b64chr_ne_61 _ h3), if_neg (b64chr_ne_61 _ h4)]
    rw [b64val_b64chr _ h1, b64val_b64chr _ h2, b64val_b64chr _ h3, b64val_b64chr _ h4]
    have hrest : b64decode (b64encode rest) = rest := by
      apply ih
      intro x hx
      exact h x (by simp [hx])
    rw [hrest]
    congr 1
    · omega
    congr 1
    · omega
    congr 1
    omega

theorem b64encode_ne_nil {bs : List Nat} (h : bs ≠ []) : b64encode bs ≠ [] := by
  match bs with
  | [] => exact absurd rfl h
  | [_] => simp [b64encode]
  | [_, _] => simp [b64encode]
  | _ :: _ :: _ :: _ => simp [b64encode]

theorem b64encode_lt (bs : List Nat) : ∀ x ∈ b64encode bs, x < 256 := by
  induction bs using b64encode.induct with
  | case1 => intro x hx; cases hx
  | case2 a =>
    intro x hx
    simp only [b64encode, List.mem_cons, List.not_mem_nil, or_false] at hx
    rcases hx with h | h | h | h <;> subst h
    · have := b64chr_lt (a / 4); omega
    · have := b64chr_lt (a % 4 * 16); omega
    · omega
    · omega
  | case3 a b =>
    intro x hx
    simp only [b64encode, List.mem_cons, List.not_mem_nil, or_false] at hx
    rcases hx with h | h | h | h <;> subst h
    · have := b64chr_lt (a / 4); omega
    · have := b64chr_lt (a % 4 * 16 + b / 16); omega
    · have := b64chr_lt (b % 16 * 4); omega
    · omega
  | case4 a b c rest ih =>
    intro x hx
    simp only [b64encode, List.mem_cons] at hx
    rcases hx with h | h | h | h | h
    · subst h; have := b64chr_lt (a / 4); omega
    · subst h; have := b64chr_lt (a % 4 * 16 + b / 16); omega
    · subst h; have := b64chr_lt (b % 16 * 4 + c / 64); omega
    · subst h; have := b64chr_lt (c % 64); omega
    · exact ih x h

/-! ## PKCS#7 padding to 16-byte blocks
(`cryptography.hazmat.primitives.padding.PKCS7(128)`) -/

/-- PKCS#7 pad: append `n` bytes of value `n`, `n = 16 - len mod 16`. -/
def pkcs7pad (bs : List Nat) : List Nat :=
  bs ++ List.replicate (16 - bs.length % 16) (16 - bs.length % 16)

/-- PKCS#7 unpad: check and strip the padding; `none` on invalid padding
(the library raises `ValueError`, surfaced as a decryption failure). -/
def pkcs7unpad (bs : List Nat) : Option (List Nat) :=
  match bs.getLast? with
  | none => none
  | some n =>
    if n = 0 ∨ 16 < n ∨ bs.length < n then none
    else if (bs.drop (bs.length - n)).all (· = n) then some (bs.take (bs.length - n))
    else none

theorem pkcs7pad_length_mod (bs : List Nat) : (pkcs7pad bs).length % 16 = 0 := by
  simp only [pkcs7pad, List.length_append, List.length_replicate]
  omega

theorem pkcs7pad_ne_nil (bs : List Nat) : pkcs7pad bs ≠ [] := by
  simp only [pkcs7pad]
  intro h
  have := congrArg List.length h
  simp only [List.length_append, List.length_replicate, List.length_nil] at this
  omega

theorem pkcs7pad_lt {bs : List Nat} (h : ∀ x ∈ bs, x < 256) :
    ∀ x ∈ pkcs7pad bs, x < 256 := by
  intro x hx
  simp only [pkcs7pad, List.mem_append, List.mem_replicate] at hx
  rcases hx with hx | ⟨-, hx⟩
  · exact h x hx
  · omega

/-- PKCS#7 round-trip. -/
theorem pkcs7_roundtrip (bs : List Nat) : pkcs7unpad (pkcs7pad bs) = some bs := by
  have hn : 0 < 16 - bs.length % 16 := by omega
  have hlen : (pkcs7pad bs).length = bs.length + (16 - bs.length % 16) := by
    simp [pkcs7pad]
  have hlast : (pkcs7pad bs).getLast? = some (16 - bs.length % 16) := by
    simp only [pkcs7pad]
    rw [List.getLast?_append_of_ne_nil]
    · rw [List.getLast?_replicate]
      rw [if_neg (by omega)]
    · intro h
      have := congrArg List.length h
      simp only [List.length_replicate, List.length_nil] at this
      omega
  simp only [pkcs7unpad, hlast]
  rw [if_neg (by omega)]
  have hdrop : (pkcs7pad bs).drop ((pkcs7pad bs).length - (16 - bs.length % 16)) =
      List.replicate (16 - bs.length % 16) (16 - bs.length % 16) := by
    simp only [pkcs7pad, List.length_append, List.length_replicate]
    rw [show bs.length + (16 - bs.length % 16) - (16 - bs.length % 16) = bs.length by omega]
    exact List.drop_left bs _
  have htake : (pkcs7pad bs).take ((pkcs7pad bs).length - (16 - bs.length % 16)) = bs := by
    simp only [pkcs7pad, List.length_append, List.length_replicate]
    rw [show bs.length + (16 - bs.length % 16) - (16 - bs.length % 16) = bs.length by omega]
    exact List.take_left bs _
  rw [hdrop, htake]
  rw [if_pos (by simp [List.all_eq_true, List.mem_replicate])]

/-! ## AES-CBC (`Cipher(algorithms.AES(key), modes.CBC(iv))`)

The AES block permutation itself is an external library primitive; it
enters as an abstract keyed function `E : key → block → block` paired
with its inverse `D`.  The CBC chaining, the 16-byte blocking and the
IV handling follow the mode's definition as used by the source. -/

/-- Bytewise XOR of two equal-length blocks. -/
def xorB (a b : List Nat) : List Nat := List.zipWith (· ^^^ ·) a b

/-- Split a byte string into consecutive 16-byte blocks (a final
partial block kept as-is; the cipher inputs are always multiples of
16 because they are PKCS#7-padded first). -/
def toBlocks : List Nat → List (List Nat)
  | [] => []
  | b1 :: b2 :: b3 :: b4 :: b5 :: b6 :: b7 :: b8 ::
      b9 :: b10 :: b11 :: b12 :: b13 :: b14 :: b15 :: b16 :: rest =>
    [b1, b2, b3, b4, b5, b6, b7, b8, b9, b10, b11, b12, b13, b14, b15, b16] :: toBlocks rest
  | bs => [bs]

/-- CBC encryption over 16-byte blocks: `Cᵢ = E (Pᵢ ⊕ Cᵢ₋₁)`, `C₀ = IV`. -/
def cbcEncB (E : List Nat → List Nat) : List Nat → List (List Nat) → List (List Nat)
  | _, [] => []
  | prev, p :: ps => E (xorB p prev) :: cbcEncB E (E (xorB p prev)) ps

/-- CBC decryption over 16-byte blocks: `Pᵢ = D Cᵢ ⊕ Cᵢ₋₁`. -/
def cbcDecB (D : List Nat → List Nat) : List Nat → List (List Nat) → List (List Nat)
  | _, [] => []
  | prev, c :: cs => xorB (D c) prev :: cbcDecB D c cs

/-- `encryptor.update(data) + encryptor.finalize()` for AES-CBC. -/
def aesCbcEncrypt (E : List Nat → List Nat) (iv bs : List Nat) : List Nat :=
  (cbcEncB E iv (toBlocks bs)).flatten

/-- `decryptor.update(data) + decryptor.finalize()` for AES-CBC. -/
def aesCbcDecrypt (D : List Nat → List Nat) (iv bs : List Nat) : List Nat :=
  (cbcDecB D iv (toBlocks bs)).flatten

theorem xorB_length (a b : List Nat) : (xorB a b).length = min a.length b.length := by
  simp [xorB]

theorem xorB_xorB (a : List Nat) : ∀ b : List Nat, a.length = b.length →
    xorB (xorB a b) b = a := by
  induction a with
  | nil =>
    intro b h
    cases b with
    | nil => rfl
    | cons y ys => simp at h
  | cons x xs ih =>
    intro b h
    cases b with
    | nil => simp at h
    | cons y ys =>
      simp only [xorB, List.zipWith_cons_cons, List.cons.injEq]
      constructor
      · exact Nat.xor_cancel_right _ _
      · exact ih ys (by simpa using h)

theorem xorB_lt {a b : List Nat} (ha : ∀ x ∈ a, x < 256) (hb : ∀ x ∈ b, x < 256) :
    ∀ x ∈ xorB a b, x < 256 := by
  induction a generalizing b with
  | nil => simp [xorB]
  | cons x xs ih =>
    cases b with
    | nil => simp [xorB]
    | cons y ys =>
      intro z hz
      simp only [xorB, List.zipWith_cons_cons, List.mem_cons] at hz
      rcases hz with hz | hz
      · subst hz
        have hx : x < 2 ^ 8 := ha x (by simp)
        have hy : y < 2 ^ 8 := hb y (by simp)
        exact Nat.xor_lt_two_pow hx hy
      · exact ih (fun u hu => ha u (by simp [hu])) (fun u hu => hb u (by simp [hu])) z hz

theorem toBlocks_flatten (bs : List Nat) : (toBlocks bs).flatten = bs := by
  induction bs using toBlocks.induct with
  | case1 => rfl
  | case2 b1 b2 b3 b4 b5 b6 b7 b8 b9 b10 b11 b12 b13 b14 b15 b16 rest ih =>
    simp only [toBlocks, List.flatten_cons, ih]
    rfl
  | case3 bs h1 h2 =>
    simp [toBlocks.eq_3 bs h1 h2]

theorem exists_sixteen (bs : List Nat) (h : bs.length = 16) :
    ∃ b1 b2 b3 b4 b5 b6 b7 b8 b9 b10 b11 b12 b13 b14 b15 b16,
      bs = [b1, b2, b3, b4, b5, b6, b7, b8, b9, b10, b11, b12, b13, b14, b15, b16] := by
  match bs, h with
  | [c1, c2, c3, c4, c5, c6, c7, c8, c9, c10, c11, c12, c13, c14, c15, c16], _ =>
    exact ⟨c1, c2, c3, c4, c5, c6, c7, c8, c9, c10, c11, c12, c13, c14, c15, c16, rfl⟩

theorem toBlocks_length {bs : List Nat} (h : bs.length % 16 = 0) :
    ∀ blk ∈ toBlocks bs, blk.length = 16 := by
  induction bs using toBlocks.induct with
  | case1 => simp [toBlocks]
  | case2 b1 b2 b3 b4 b5 b6 b7 b8 b9 b10 b11 b12 b13 b14 b15 b16 rest ih =>
    intro blk hblk
    simp only [toBlocks, List.mem_cons] at hblk
    rcases hblk with hblk | hblk
    · subst hblk; rfl
    · apply ih _ blk hblk
      simp only [List.length_cons] at h
      omega
  | case3 bs h1 h2 =>
    intro blk hblk
    exfalso
    by_cases hge : 16 ≤ bs.length
    · obtain ⟨b1, b2, b3, b4, b5, b6, b7, b8, b9, b10, b11, b12, b13, b14, b15, b16, he⟩ :=
        exists_sixteen (bs.take 16) (by rw [List.length_take]; omega)
      apply h2 b1 b2 b3 b4 b5 b6 b7 b8 b9 b10 b11 b12 b13 b14 b15 b16 (bs.drop 16)
      rw [← List.take_append_drop 16 bs, he]
      rfl
    · have hz : bs.length = 0 := by omega
      exact h1 (List.eq_nil_of_length_eq_zero hz)

theorem toBlocks_of_flatten {blocks : List (List Nat)}
    (h : ∀ blk ∈ blocks, blk.length = 16) : toBlocks blocks.flatten = blocks := by
  induction blocks with
  | nil => rfl
  | cons b rest ih =>
    have hb : b.length = 16 := h b (by simp)
    match b, hb with
    | [b1, b2, b3, b4, b5, b6, b7, b8, b9, b10, b11, b12, b13, b14, b15, b16], _ =>
      show toBlocks (b1 :: b2 :: b3 :: b4 :: b5 :: b6 :: b7 :: b8 :: b9 :: b10 ::
        b11 :: b12 :: b13 :: b14 :: b15 :: b16 :: rest.flatten) = _
      rw [toBlocks]
      rw [ih (fun blk hblk => h blk (by simp [hblk]))]

theorem cbcEncB_length (E : List Nat → List Nat)
    (hE : ∀ blk, blk.length = 16 → (E blk).length = 16) :
    ∀ (blocks : List (List Nat)) (prev : List Nat), prev.length = 16 →
      (∀ blk ∈ blocks, blk.length = 16) →
      ∀ c ∈ cbcEncB E prev blocks, c.length = 16 := by
  intro blocks
  induction blocks with
  | nil => intro prev _ _ c hc; simp [cbcEncB] at hc
  | cons p ps ih =>
    intro prev hprev hblk c hc
    have hp : p.length = 16 := hblk p (by simp)
    have hxor : (xorB p prev).length = 16 := by
      rw [xorB_length, hp, hprev]; exact Nat.min_self 16
    have hEc : (E (xorB p prev)).length = 16 := hE _ hxor
    simp only [cbcEncB, List.mem_cons] at hc
    rcases hc with hc | hc
    · subst hc; exact hEc
    · exact ih _ hEc (fun b hb => hblk b (by simp [hb])) c hc

theorem cbcB_roundtrip (E D : List Nat → List Nat)
    (hED : ∀ blk, blk.length = 16 → D (E blk) = blk)
    (hE : ∀ blk, blk.length = 16 → (E blk).length = 16) :
    ∀ (blocks : List (List Nat)) (prev : List Nat), prev.length = 16 →
      (∀ blk ∈ blocks, blk.length = 16) →
      cbcDecB D prev (cbcEncB E prev blocks) = blocks := by
  intro blocks
  induction blocks with
  | nil => intro prev _ _; rfl
  | cons p ps ih =>
    intro prev hprev hblk
    have hp : p.length = 16 := hblk p (by simp)
    have hxor : (xorB p prev).length = 16 := by
      rw [xorB_length, hp, hprev]; exact Nat.min_self 16
    simp only [cbcEncB, cbcDecB, List.cons.injEq]
    constructor
    · rw [hED _ hxor]
      exact xorB_xorB p prev (by omega)
    · exact ih _ (hE _ hxor) (fun b hb => hblk b (by simp [hb]))

/-- AES-CBC round-trip on a whole byte string whose length is a
multiple of the block size. -/
theorem aesCbc_roundtrip (E D : List Nat → List Nat)
    (hED : ∀ blk, blk.length = 16 → D (E blk) = blk)
    (hE : ∀ blk, blk.length = 16 → (E blk).length = 16)
    (iv bs : List Nat) (hiv : iv.length = 16) (hbs : bs.length % 16 = 0) :
    aesCbcDecrypt D iv (aesCbcEncrypt E iv bs) = bs := by
  unfold aesCbcEncrypt aesCbcDecrypt
  rw [toBlocks_of_flatten (cbcEncB_length E hE (toBlocks bs) iv hiv (toBlocks_length hbs))]
  rw [cbcB_roundtrip E D hED hE (toBlocks bs) iv hiv (toBlocks_length hbs)]
  exact toBlocks_flatten bs

theorem aesCbcEncrypt_lt (E : List Nat → List Nat)
    (hEb : ∀ blk, (∀ x ∈ blk, x < 256) → ∀ x ∈ E blk, x < 256)
    (iv bs : List Nat) (hiv : ∀ x ∈ iv, x < 256) (hbs : ∀ x ∈ bs, x < 256) :
    ∀ x ∈ aesCbcEncrypt E iv bs, x < 256 := by
  unfold aesCbcEncrypt
  have hblocks : ∀ blk ∈ toBlocks bs, ∀ x ∈ blk, x < 256 := by
    intro blk hblk x hx
    apply hbs
    rw [← toBlocks_flatten bs]
    exact List.mem_flatten.2 ⟨blk, hblk, hx⟩
  generalize hB : toBlocks bs = blocks at hblocks
  clear hB hbs
  induction blocks generalizing iv with
  | nil => simp [cbcEncB]
  | cons p ps ih =>
    intro x hx
    have hp : ∀ y ∈ p, y < 256 := hblocks p (by simp)
    have hc : ∀ y ∈ E (xorB p iv), y < 256 := hEb _ (xorB_lt hp hiv)
    simp only [cbcEncB, List.flatten_cons, List.mem_append] at hx
    rcases hx with hx | hx
    · exact hc x hx
    · exact ih _ hc (fun b hb => hblocks b (by simp [hb])) x hx

/-! ## `WhatsAppClient` (`whatsapp_client.py`)

`os.urandom` outputs (`aes_key`, `iv`) are explicit inputs; the RSA
key pair enters as the abstract wrap/unwrap pair
(`recipient_public_key.encrypt`, `self.private_key.decrypt`); the AES
block permutation as the abstract keyed pair `E`/`D`. -/

/-- `WhatsAppClient.encrypt_message` (lines 61–97).  `rsaEnc` is the
fetched recipient public key (`none` when `fetch_public_key` failed,
in which case the method returns `None`).  Returns the envelope dict
`{recipient_id, encrypted_payload, encrypted_key}`. -/
def encrypt_message (rsaEnc : Option (List Nat → List Nat))
    (E : List Nat → List Nat → List Nat)
    (aes_key iv : List Nat) (recipient_id message : List Nat) : Option Val :=
  match rsaEnc with
  | none => none
  | some pk =>
    let padded_data := pkcs7pad message
    let ciphertext := aesCbcEncrypt (E aes_key) iv padded_data
    let encrypted_payload := b64encode (iv ++ ciphertext)
    let encrypted_key_b64 := b64encode (pk aes_key)
    some (.vobj [("recipient_id", .vstr recipient_id),
                 ("encrypted_payload", .vstr encrypted_payload),
                 ("encrypted_key", .vstr encrypted_key_b64)])

/-- `WhatsAppClient.decrypt_message` (lines 99–132).  Expects
`data = {"payload": {"encrypted_payload": …, "encrypted_key": …},
"sender_id": …}`; any `KeyError`, RSA unwrap failure or padding error
is caught by the `try`/`except` and yields `None`. -/
def decrypt_message (rsaDec : List Nat → Option (List Nat))
    (D : List Nat → List Nat → List Nat) (data : Val) : Option (List Nat) := do
  let payload ← data.get "payload"
  let epv ← payload.get "encrypted_payload"
  let encrypted_payload ← epv.asStr
  let ekv ← payload.get "encrypted_key"
  let encrypted_key ← ekv.asStr
  let _sender_id ← data.get "sender_id"
  let aes_key ← rsaDec (b64decode encrypted_key)
  let iv := (b64decode encrypted_payload).take 16
  let ciphertext := (b64decode encrypted_payload).drop 16
  let padded_plaintext := aesCbcDecrypt (D aes_key) iv ciphertext
  pkcs7unpad padded_plaintext

/-! ## Connection service (`services/connection-service/app.py`)

The registry `ConnectionManager.active_connections` is a dict from
user id to a live websocket session, modelled as an association list
keyed by the user-id string with `Nat` session handles. -/

/-- The connection registry type. -/
abbrev Registry : Type := List (List Nat × Nat)

/-- `ConnectionManager.connect` (lines 21–24): accept and register,
replacing any previous session for the same user id. -/
def connect (reg : Registry) (user_id : List Nat) (websocket : Nat) : Registry :=
  updateD reg user_id websocket

/-- `ConnectionManager.disconnect` (lines 26–29): takes only the user
id; if present, delete whatever session is currently registered. -/
def disconnect (reg : Registry) (user_id : List Nat) : Registry :=
  if (lookupD reg user_id).isSome then eraseD reg user_id else reg

/-- `ConnectionManager.send_personal_message` (lines 31–35): if the
user is connected, `send_text` to its session and return `True`;
otherwise return `False`.  The second component lists the transport
pushes performed. -/
def send_personal_message (reg : Registry) (message : List Nat) (user_id : List Nat) :
    Bool × List (Nat × List Nat) :=
  match lookupD reg user_id with
  | some ws => (true, [(ws, message)])
  | none => (false, [])

/-- One iteration of `consume_outgoing` (lines 58–77) on a consumed
message: reads `recipient_id` and `payload`, and — in the connected
branch — only binds the session and executes `pass`; no `send_text`
happens on any path.  The result lists the transport pushes performed. -/
def consume_outgoing_step (reg : Registry) (m : Val) : List (Nat × List Nat) :=
  match m.get "recipient_id", m.get "payload" with
  | some rv, some pv =>
    if rv.truthy && pv.truthy then
      match rv with
      | .vstr s =>
        if (lookupD reg s).isSome then
          -- `ws = manager.active_connections[recipient_id]` … `pass`
          []
        else []
      | .vobj _ => []
    else []
  | _, _ => []

/-- The message-receive loop body of `websocket_endpoint`
(lines 87–97): parse the frame (`none` models a `json.loads` failure
or a non-dict value, both swallowed by the `except`), stamp
`msg['sender_id'] = user_id`, publish to the incoming topic. -/
def websocket_publish (user_id : List Nat) (data : Option Val) : Option Val :=
  match data with
  | some (.vobj fields) => some (.vobj (setF fields "sender_id" (.vstr user_id)))
  | _ => none

/-! ## Chat processor (`services/chat-processor/app.py`)

One iteration of the `process_messages` consumer loop.  The KMS
`generate_data_key` response (`Plaintext`, `CiphertextBlob`) and the
per-message `os.urandom(16)` IV are explicit inputs; the AES block
permutation is the abstract keyed `E`. -/

/-- The values the loop body produces for one message: the SQL `INSERT`
row, the message republished to the outgoing topic, and the
intermediate storage-layer blobs (named after the source locals). -/
structure ProcResult where
  /-- `message_id` column value (`data.get('message_id')`, may be `None`/NULL). -/
  message_id : Option Val
  /-- `sender_id` column value. -/
  sender_id : Val
  /-- `recipient_id` column value. -/
  recipient_id : Val
  /-- `iv + kms_encrypted_content` — the storage-layer payload ciphertext bytes. -/
  content_bytes : List Nat
  /-- `storage_blob = b64encode(iv + kms_encrypted_content)` — 4th `INSERT` value. -/
  storage_blob : List Nat
  /-- `encrypted_dek_b64 = b64encode(encrypted_data_key)` — 5th `INSERT` value. -/
  encrypted_dek_b64 : List Nat
  /-- `iv + kms_encrypted_key_content` — the storage-layer wrapped-key ciphertext bytes. -/
  key_content_bytes : List Nat
  /-- `encrypted_key_storage = b64encode(iv + kms_encrypted_key_content)` —
  computed at line 221 and used nowhere afterwards. -/
  encrypted_key_storage : List Nat
  /-- `outgoing_msg` sent to the outgoing topic. -/
  outgoing : Val

/-- The five `INSERT INTO messages` parameters, in order (lines 230–233). -/
def insertedRow (r : ProcResult) : Option Val × Val × Val × List Nat × List Nat :=
  (r.message_id, r.sender_id, r.recipient_id, r.storage_blob, r.encrypted_dek_b64)

/-- One `process_messages` loop iteration (lines 153–252) on message
`data`.  `none` models both the "Invalid message format" `continue`
and an exception caught at line 254 (e.g. a non-string payload field). -/
def process_message (E : List Nat → List Nat → List Nat)
    (plaintext_data_key encrypted_data_key iv : List Nat) (data : Val) : Option ProcResult :=
  match data.get "sender_id", data.get "recipient_id",
      data.get "encrypted_payload", data.get "encrypted_key" with
  | some sidv, some ridv, some epv, some ekv =>
    if sidv.truthy && ridv.truthy && epv.truthy && ekv.truthy then
      match epv.asStr, ekv.asStr with
      | some encrypted_payload, some encrypted_key =>
        let padded_payload := pkcs7pad encrypted_payload
        let kms_encrypted_content := aesCbcEncrypt (E plaintext_data_key) iv padded_payload
        let storage_blob := b64encode (iv ++ kms_encrypted_content)
        let encrypted_dek_b64 := b64encode encrypted_data_key
        let padded_key := pkcs7pad encrypted_key
        let kms_encrypted_key_content := aesCbcEncrypt (E plaintext_data_key) iv padded_key
        let encrypted_key_storage := b64encode (iv ++ kms_encrypted_key_content)
        some { message_id := data.get "message_id"
               sender_id := sidv
               recipient_id := ridv
               content_bytes := iv ++ kms_encrypted_content
               storage_blob := storage_blob
               encrypted_dek_b64 := encrypted_dek_b64
               key_content_bytes := iv ++ kms_encrypted_key_content
               encrypted_key_storage := encrypted_key_storage
               outgoing := .vobj [("recipient_id", ridv), ("sender_id", sidv),
                 ("payload", .vobj [("encrypted_payload", epv), ("encrypted_key", ekv)])] }
      | _, _ => none
    else none
  | _, _, _, _ => none

/-! ## Auth middleware (`services/auth_middleware.py`)

`jwt.decode` (PyJWT) is an external library call, modelled from its
documented behaviour: signature is verified first
(`InvalidTokenError` subsumes a bad signature), then `exp`
(`ExpiredSignatureError`), then `aud` (`InvalidAudienceError`). -/

/-- The facts `jwt.decode` checks about a presented token. -/
structure Token where
  /-- Whether the RS256 signature verifies under the fetched public key. -/
  sigValid : Bool
  /-- The `exp` claim (epoch seconds). -/
  exp : Nat
  /-- The `aud` claim. -/
  aud : String
  /-- The decoded claim set. -/
  claims : List (String × Val)

/-- Errors distinguished by the `except` arms of `verify_token`. -/
inductive JwtError where
  | expiredSignature
  | invalidAudience
  | invalidToken
  deriving DecidableEq

/-- Model of PyJWT `jwt.decode(token, key, algorithms=['RS256'],
audience=…, options={"verify_aud": True})`. -/
def jwtDecode (expectedAud : String) (now : Nat) (tok : Token) :
    Except JwtError (List (String × Val)) :=
  if !tok.sigValid then .error .invalidToken
  else if tok.exp ≤ now then .error .expiredSignature
  else if tok.aud ≠ expectedAud then .error .invalidAudience
  else .ok tok.claims

/-- The fixed synthetic claim set returned when auth is disabled
(line 66): `{"sub": "test-user", "scope": "read:keys write:keys"}`. -/
def mockClaims : List (String × Val) :=
  [("sub", .vstr [116, 101, 115, 116, 45, 117, 115, 101, 114]),
   ("scope", .vstr [114, 101, 97, 100, 58, 107, 101, 121, 115, 32,
                    119, 114, 105, 116, 101, 58, 107, 101, 121, 115])]

/-- `ServiceAuthenticator.verify_token` (lines 51–84): with
`enabled = false` it returns the mock claims without looking at the
token; otherwise it maps the `jwt.decode` outcome to the re-raised
exception messages. -/
def verify_token (enabled : Bool) (expectedAud : String) (now : Nat) (tok : Token) :
    Except String (List (String × Val)) :=
  if !enabled then .ok mockClaims
  else
    match jwtDecode expectedAud now tok with
    | .ok claims => .ok claims
    | .error .expiredSignature => .error "Token expired"
    | .error .invalidAudience => .error "Invalid token audience"
    | .error .invalidToken => .error "Invalid token"

/-! ## Key service (`services/key-service/app.py`) -/

/-- ASCII codes of a literal, for readable byte-string constants. -/
def str2b (s : String) : List Nat := s.toList.map Char.toNat

/-- Python substring test `needle in hay` on strings. -/
def containsSub (needle : List Nat) : List Nat → Bool
  | [] => needle.isEmpty
  | x :: rest => needle.isPrefixOf (x :: rest) || containsSub needle rest

/-- `token_user = claims.get('preferred_username') or claims.get('sub')`
(line 45): Python `or` takes the second operand whenever the first is
falsy or missing. -/
def tokenUserOf (claims : List (String × Val)) : Option Val :=
  match getF claims "preferred_username" with
  | some v => if v.truthy then some v else getF claims "sub"
  | none => getF claims "sub"

/-- `claims.get('scope', '')` viewed as a string (line 56); the scope
claim of a decoded JWT is a space-delimited string. -/
def scopeOf (claims : List (String × Val)) : List Nat :=
  ((getF claims "scope").bind Val.asStr).getD []

/-- `upload_key` (lines 41–89), after the `require_auth` wrapper has
accepted the bearer token and attached `claims`.  Result: HTTP status
and, on success, the `(user_id, public_key)` upsert performed.
The cross-user guard (line 56) is
`if 'service' not in claims.get('scope', '') and token_user != user_id`
— a substring test on the scope string, not membership of a token. -/
def upload_key (claims : List (String × Val)) (body : List (String × Val)) :
    Nat × Option (Val × Val) :=
  let token_user := tokenUserOf claims
  let user_id := getF body "user_id"
  let public_key := getF body "public_key"
  if !(truthyO user_id && truthyO public_key) then (400, none)
  else if !containsSub (str2b "service") (scopeOf claims) && !beqO token_user user_id then
    (403, none)
  else
    (201, do pure (← user_id, ← public_key))

/-! ## Helper lemmas -/

theorem optBind_some {α β : Type} (a : α) (f : α → Option β) : (some a).bind f = f a := rfl

theorem truthy_vstr {s : List Nat} (h : s ≠ []) : (Val.vstr s).truthy = true := by
  cases s with
  | nil => exact absurd rfl h
  | cons x xs => rfl

theorem getF_setF_self (fs : List (String × Val)) (key : String) (v : Val) :
    getF (setF fs key v) key = some v := by
  induction fs with
  | nil => simp [setF, getF]
  | cons p rest ih =>
    obtain ⟨k, w⟩ := p
    by_cases hk : k = key
    · subst hk
      simp [setF, getF]
    · simp only [setF, getF, if_neg hk]
      exact ih

theorem lookupD_updateD_self {κ α : Type} [DecidableEq κ]
    (d : List (κ × α)) (key : κ) (v : α) : lookupD (updateD d key v) key = some v := by
  induction d with
  | nil => simp [updateD, lookupD]
  | cons p rest ih =>
    obtain ⟨k, w⟩ := p
    by_cases hk : k = key
    · subst hk
      simp [updateD, lookupD]
    · simp only [updateD, lookupD, if_neg hk]
      exact ih

theorem lookupD_updateD_ne {κ α : Type} [DecidableEq κ]
    (d : List (κ × α)) (key k' : κ) (v : α) (h : k' ≠ key) :
    lookupD (updateD d key v) k' = lookupD d k' := by
  induction d with
  | nil =>
    simp only [updateD, lookupD]
    rw [if_neg (fun he => h (Eq.symm he))]
  | cons p rest ih =>
    obtain ⟨k, w⟩ := p
    by_cases hk : k = key
    · subst hk
      simp only [updateD, if_pos rfl, lookupD]
      rw [if_neg (fun he => h he.symm), if_neg (fun he => h he.symm)]
    · simp only [updateD, if_neg hk, lookupD]
      by_cases hk' : k = k'
      · rw [if_pos hk', if_pos hk']
      · rw [if_neg hk', if_neg hk']
        exact ih

theorem lookupD_eq_none {κ α : Type} [DecidableEq κ]
    (d : List (κ × α)) (key : κ) (h : key ∉ d.map Prod.fst) : lookupD d key = none := by
  induction d with
  | nil => rfl
  | cons p rest ih =>
    obtain ⟨k, w⟩ := p
    simp only [List.map_cons, List.mem_cons] at h
    push_neg at h
    simp only [lookupD]
    rw [if_neg (fun he => h.1 he.symm)]
    exact ih h.2

theorem mem_keys_updateD {κ α : Type} [DecidableEq κ]
    (d : List (κ × α)) (key k : κ) (v : α) :
    k ∈ (updateD d key v).map Prod.fst → k ∈ d.map Prod.fst ∨ k = key := by
  induction d with
  | nil =>
    intro h
    simp only [updateD, List.map_cons, List.map_nil, List.mem_cons,
      List.not_mem_nil, or_false] at h
    exact Or.inr h
  | cons p rest ih =>
    obtain ⟨pk, pv⟩ := p
    intro h
    simp only [updateD] at h
    by_cases hpk : pk = key
    · rw [if_pos hpk] at h
      simp only [List.map_cons, List.mem_cons] at h
      rcases h with h | h
      · exact Or.inr h
      · exact Or.inl (by simp only [List.map_cons, List.mem_cons]; exact Or.inr h)
    · rw [if_neg hpk] at h
      simp only [List.map_cons, List.mem_cons] at h
      rcases h with h | h
      · exact Or.inl (by simp [h])
      · rcases ih h with hm | hm
        · exact Or.inl (by simp only [List.map_cons, List.mem_cons]; exact Or.inr hm)
        · exact Or.inr hm

theorem updateD_keys_nodup {κ α : Type} [DecidableEq κ]
    (d : List (κ × α)) (key : κ) (v : α) :
    (d.map Prod.fst).Nodup → ((updateD d key v).map Prod.fst).Nodup := by
  induction d with
  | nil => intro _; simp [updateD]
  | cons p rest ih =>
    obtain ⟨k, w⟩ := p
    intro h
    simp only [List.map_cons, List.nodup_cons] at h
    simp only [updateD]
    by_cases hk : k = key
    · rw [if_pos hk]
      subst hk
      simp only [List.map_cons, List.nodup_cons]
      exact h
    · rw [if_neg hk]
      simp only [List.map_cons, List.nodup_cons]
      refine ⟨fun hmem => ?_, ih h.2⟩
      rcases mem_keys_updateD rest key k v hmem with hm | hm
      · exact h.1 hm
      · exact hk hm

theorem lookupD_eraseD_self {κ α : Type} [DecidableEq κ]
    (d : List (κ × α)) (key : κ) :
    (d.map Prod.fst).Nodup → lookupD (eraseD d key) key = none := by
  induction d with
  | nil => intro _; rfl
  | cons p rest ih =>
    obtain ⟨k, w⟩ := p
    intro h
    simp only [List.map_cons, List.nodup_cons] at h
    simp only [eraseD]
    by_cases hk : k = key
    · rw [if_pos hk]
      subst hk
      exact lookupD_eq_none rest k h.1
    · rw [if_neg hk]
      simp only [lookupD]
      rw [if_neg hk]
      exact ih h.2

/-! ## Claim theorems -/

/-- The wire field names of an envelope dict. -/
def envelopeKeys : Val → List String
  | .vstr _ => []
  | .vobj fs => fs.map Prod.fst

/-- C9: every message received on the websocket endpoint for path user
id `u` is published to the incoming topic with `sender_id = u`,
overriding any sender_id the client put in the body — a connected
client cannot spoof its sender identity. -/
theorem C9_sender_stamped (u : List Nat) (data : Option Val) :
    (websocket_publish u data).map (fun out => out.get "sender_id") =
      (websocket_publish u data).map (fun _ => some (.vstr u)) := by
  cases data with
  | none => rfl
  | some v =>
    cases v with
    | vstr s => rfl
    | vobj fs =>
      simp only [websocket_publish, Option.map]
      rw [show (Val.vobj (setF fs "sender_id" (.vstr u))).get "sender_id" =
        getF (setF fs "sender_id" (.vstr u)) "sender_id" from rfl]
      rw [getF_setF_self]

/-- C8: whenever the chat processor successfully processes an inbound
message, the message republished to the outgoing topic carries the
original `encrypted_payload` and `encrypted_key` values unchanged
(nested under `payload`); the storage wrapping is never applied to the
delivered copy. -/
theorem C8_outgoing_preserves_ciphertext (E : List Nat → List Nat → List Nat)
    (dk ekb iv : List Nat) (data : Val) :
    (process_message E dk ekb iv data).map (fun r =>
        ((r.outgoing.get "payload").bind (fun p => p.get "encrypted_payload"),
         (r.outgoing.get "payload").bind (fun p => p.get "encrypted_key"))) =
      (process_message E dk ekb iv data).map (fun _ =>
        (data.get "encrypted_payload", data.get "encrypted_key")) := by
  unfold process_message
  rcases hs : data.get "sender_id" with _ | sidv
  · rfl
  rcases hr : data.get "recipient_id" with _ | ridv
  · rfl
  rcases hp : data.get "encrypted_payload" with _ | epv
  · rfl
  rcases hk : data.get "encrypted_key" with _ | ekv
  · rfl
  cases ht : sidv.truthy && ridv.truthy && epv.truthy && ekv.truthy
  · simp [ht]
  simp only [ht, reduceIte]
  rcases hep : epv.asStr with _ | ep
  · rfl
  rcases hek : ekv.asStr with _ | ek
  · rfl
  rfl

/-- C3 counterexample: a message consumed from the outgoing topic whose
recipient `bob` is registered with live session `7` produces no
transport push at all — the delivery loop's connected branch is
`pass`, so the claim's "pushes the message over that recipient's live
transport session" fails. -/
theorem C3_counterexample :
    consume_outgoing_step [(str2b "bob", 7)]
        (.vobj [("recipient_id", .vstr (str2b "bob")),
                ("payload", .vobj [("encrypted_payload", .vstr (str2b "x")),
                                   ("encrypted_key", .vstr (str2b "y"))])]) = [] ∧
      lookupD [(str2b "bob", 7)] (str2b "bob") = some 7 :=
  ⟨rfl, rfl⟩

/-- C3 amended: the outgoing-topic consumer loop performs no transport
push for any message — registered or not — and never throws or queues;
`send_personal_message`, when invoked, pushes to the registered
session and returns `True`, and is a `False`-returning no-op for an
unconnected recipient. -/
theorem C3_amended_route (reg : Registry) (m : Val) (msg uid : List Nat) :
    consume_outgoing_step reg m = [] ∧
      (∀ ws, lookupD reg uid = some ws →
        send_personal_message reg msg uid = (true, [(ws, msg)])) ∧
      (lookupD reg uid = none → send_personal_message reg msg uid = (false, [])) := by
  refine ⟨?_, fun ws h => ?_, fun h => ?_⟩
  · unfold consume_outgoing_step
    rcases h1 : m.get "recipient_id" with _ | rv
    · rfl
    rcases h2 : m.get "payload" with _ | pv
    · rfl
    cases ht : rv.truthy && pv.truthy
    · simp [ht]
    simp only [ht, reduceIte]
    cases rv with
    | vstr s =>
      show (if (lookupD reg s).isSome then _ else _) = ([] : List (Nat × List Nat))
      split <;> rfl
    | vobj fs => rfl
  · unfold send_personal_message
    rw [h]
  · unfold send_personal_message
    rw [h]

/-- C3 witness: concrete instance — the consumer loop pushes nothing,
while a direct `send_personal_message` to registered `bob` delivers. -/
theorem C3_witness :
    send_personal_message [(str2b "bob", 7)] (str2b "m") (str2b "bob") =
        (true, [(7, str2b "m")]) ∧
      consume_outgoing_step [(str2b "bob", 7)] (.vobj []) = [] :=
  ⟨(C3_amended_route [(str2b "bob", 7)] (.vobj []) (str2b "m") (str2b "bob")).2.1 7 rfl,
   (C3_amended_route [(str2b "bob", 7)] (.vobj []) (str2b "m") (str2b "bob")).1⟩

/-- C4 counterexample: after `connect(u, 1)` then `connect(u, 2)`, user
`u` maps to session `2`; but `disconnect(u)` — which is all a stale
session-1 close can invoke, since `disconnect` takes only the user
id — evicts session `2`, so the claimed "does not evict the newer
session B" fails. -/
theorem C4_counterexample :
    lookupD (connect (connect ([] : Registry) (str2b "u") 1) (str2b "u") 2) (str2b "u") =
        some 2 ∧
      lookupD (disconnect (connect (connect ([] : Registry) (str2b "u") 1) (str2b "u") 2)
        (str2b "u")) (str2b "u") ≠ some 2 :=
  ⟨rfl, by decide⟩

/-- C4 amended: last-connect wins — after `connect(u, A)` then
`connect(u, B)` the registry maps `u` to `B` only and other users are
untouched; but `disconnect` is keyed by user id alone, so a disconnect
triggered by the stale session `A` removes the registration,
evicting the newer session `B` rather than being a no-op. -/
theorem C4_amended_last_connect (reg : Registry) (u : List Nat) (A B : Nat)
    (hnd : (reg.map Prod.fst).Nodup) :
    lookupD (connect (connect reg u A) u B) u = some B ∧
      (∀ k, k ≠ u → lookupD (connect (connect reg u A) u B) k = lookupD reg k) ∧
      lookupD (disconnect (connect (connect reg u A) u B) u) u = none := by
  refine ⟨lookupD_updateD_self _ _ _, fun k hk => ?_, ?_⟩
  · unfold connect
    rw [lookupD_updateD_ne _ _ _ _ hk, lookupD_updateD_ne _ _ _ _ hk]
  · unfold disconnect connect
    rw [lookupD_updateD_self]
    show lookupD (eraseD (updateD (updateD reg u A) u B) u) u = none
    exact lookupD_eraseD_self _ u
      (updateD_keys_nodup _ _ _ (updateD_keys_nodup _ _ _ hnd))

/-- C4 witness: concrete instance on the empty registry. -/
theorem C4_witness :
    lookupD (connect (connect ([] : Registry) (str2b "v") 1) (str2b "v") 2) (str2b "v") =
        some 2 ∧
      lookupD (disconnect (connect (connect ([] : Registry) (str2b "v") 1) (str2b "v") 2)
        (str2b "v")) (str2b "v") = none :=
  ⟨(C4_amended_last_connect [] (str2b "v") 1 2 List.nodup_nil).1,
   (C4_amended_last_connect [] (str2b "v") 1 2 List.nodup_nil).2.2⟩

/-- C5 counterexample: a concrete envelope produced by
`encrypt_message` has no `sender_id` and no `message_id` field, so the
claimed five-field wire envelope fails. -/
theorem C5_counterexample :
    ((encrypt_message (some (fun k => k)) (fun _ b => b) (List.replicate 32 7)
        (List.replicate 16 0) (str2b "bob") (str2b "hi")).bind
      (fun env => env.get "sender_id")) = none ∧
      ((encrypt_message (some (fun k => k)) (fun _ b => b) (List.replicate 32 7)
        (List.replicate 16 0) (str2b "bob") (str2b "hi")).bind
      (fun env => env.get "message_id")) = none :=
  ⟨rfl, rfl⟩

/-- C5 amended: whenever the recipient's public key is available, the
envelope returned by `encrypt_message` has exactly the three fields
`recipient_id`, `encrypted_payload`, `encrypted_key`; `sender_id` is
stamped later by the connection service and no client message id is
generated. -/
theorem C5_amended_fields (pk : List Nat → List Nat) (E : List Nat → List Nat → List Nat)
    (aes_key iv recipient_id message : List Nat) :
    (encrypt_message (some pk) E aes_key iv recipient_id message).map envelopeKeys =
      some ["recipient_id", "encrypted_payload", "encrypted_key"] := rfl

/-- C7 counterexample: with authentication disabled, `verify_token`
returns the fixed mock claims even for a long-expired token
(`exp = 0` at `now = 100`), so "rejected regardless of the verifier's
operating mode" fails. -/
theorem C7_counterexample :
    verify_token false "my-microservice" 100 ⟨true, 0, "my-microservice", []⟩ =
      .ok mockClaims := rfl

/-- C7 amended: when the verifier is enabled, every token past its
expiry is rejected regardless of signature validity — with "Token
expired" when the signature verifies, and as an invalid token when it
does not; in disabled mode `verify_token` returns the fixed synthetic
claims without examining the token at all. -/
theorem C7_amended_expiry (aud : String) (now : Nat) (tok : Token) (h : tok.exp ≤ now) :
    verify_token true aud now tok =
      .error (if tok.sigValid then "Token expired" else "Invalid token") := by
  unfold verify_token jwtDecode
  cases hsig : tok.sigValid
  · simp [hsig]
  · simp [hsig, h]

/-- C7 witness: a concrete expired, valid-signature token is rejected
with "Token expired" by the enabled verifier. -/
theorem C7_witness :
    verify_token true "my-microservice" 100 ⟨true, 50, "my-microservice", []⟩ =
      .error "Token expired" :=
  C7_amended_expiry "my-microservice" 100 ⟨true, 50, "my-microservice", []⟩ (by decide)

/-- C6 counterexample: caller `mallory` (subject ≠ `alice`) whose scope
string `"write:keys disservice"` contains `service` only inside the
token `disservice` is allowed to upload a key for `alice`
(HTTP 201 and the upsert happens), because the code's guard is a
substring test; the claim's exact-membership Forbidden fails. -/
theorem C6_counterexample :
    upload_key [("sub", .vstr (str2b "mallory")),
        ("scope", .vstr (str2b "write:keys disservice"))]
      [("user_id", .vstr (str2b "alice")), ("public_key", .vstr (str2b "PK"))] =
      (201, some (.vstr (str2b "alice"), .vstr (str2b "PK"))) := rfl

/-- C6 amended: with both body fields present, the upload fails with
403 exactly when the ASCII string `service` does not occur as a
substring of the scope claim AND the token user (the
`preferred_username` claim if truthy, else `sub`) differs from the
body's `user_id`; the scope check is substring containment, not exact
membership. -/
theorem C6_amended_guard (claims body : List (String × Val))
    (hu : truthyO (getF body "user_id") = true)
    (hp : truthyO (getF body "public_key") = true) :
    (upload_key claims body).1 = 403 ↔
      (containsSub (str2b "service") (scopeOf claims) = false ∧
       beqO (tokenUserOf claims) (getF body "user_id") = false) := by
  simp only [upload_key]
  rw [hu, hp]
  cases hcs : containsSub (str2b "service") (scopeOf claims) <;>
    cases hbq : beqO (tokenUserOf claims) (getF body "user_id") <;>
      simp [hcs, hbq]

/-- C6 witness: caller `mallory` with scope `"write:keys"` (no
`service` substring) uploading for `alice` receives 403. -/
theorem C6_witness :
    (upload_key [("sub", .vstr (str2b "mallory")), ("scope", .vstr (str2b "write:keys"))]
      [("user_id", .vstr (str2b "alice")), ("public_key", .vstr (str2b "PK"))]).1 = 403 :=
  (C6_amended_guard [("sub", .vstr (str2b "mallory")),
      ("scope", .vstr (str2b "write:keys"))]
    [("user_id", .vstr (str2b "alice")), ("public_key", .vstr (str2b "PK"))]
    rfl rfl).mpr ⟨rfl, rfl⟩

/-- C10: on every successfully processed message, the storage-layer
payload ciphertext and the storage-layer wrapped-key ciphertext are
both produced under the single per-message IV — each of the two byte
strings is prefixed by that same 16-byte IV (and both CBC encryptions
run under the same plaintext data key). -/
theorem C10_shared_iv (E : List Nat → List Nat → List Nat)
    (dk ekb iv : List Nat) (data : Val) (hiv : iv.length = 16) :
    (process_message E dk ekb iv data).map (fun r =>
        (r.content_bytes.take 16, r.key_content_bytes.take 16)) =
      (process_message E dk ekb iv data).map (fun _ => (iv, iv)) := by
  have htake : ∀ c : List Nat, (iv ++ c).take 16 = iv := by
    intro c
    rw [← hiv]
    exact List.take_left iv c
  unfold process_message
  rcases hs : data.get "sender_id" with _ | sidv
  · rfl
  rcases hr : data.get "recipient_id" with _ | ridv
  · rfl
  rcases hp : data.get "encrypted_payload" with _ | epv
  · rfl
  rcases hk : data.get "encrypted_key" with _ | ekv
  · rfl
  cases ht : sidv.truthy && ridv.truthy && epv.truthy && ekv.truthy
  · simp [ht]
  simp only [ht, reduceIte]
  rcases hep : epv.asStr with _ | ep
  · rfl
  rcases hek : ekv.asStr with _ | ek
  · rfl
  simp only [Option.map]
  rw [htake, htake]

/-- C10 witness: concrete processed message — both storage-layer
ciphertext byte strings carry the IV `replicate 16 0` as prefix. -/
theorem C10_witness :
    (process_message (fun _ b => b) [1] [2] (List.replicate 16 0)
        (Val.vobj [("sender_id", .vstr (str2b "alice")),
          ("recipient_id", .vstr (str2b "bob")),
          ("encrypted_payload", .vstr (str2b "EP")),
          ("encrypted_key", .vstr (str2b "EK"))])).map (fun r =>
        (r.content_bytes.take 16, r.key_content_bytes.take 16)) =
      (process_message (fun _ b => b) [1] [2] (List.replicate 16 0)
        (Val.vobj [("sender_id", .vstr (str2b "alice")),
          ("recipient_id", .vstr (str2b "bob")),
          ("encrypted_payload", .vstr (str2b "EP")),
          ("encrypted_key", .vstr (str2b "EK"))])).map (fun _ =>
        (List.replicate 16 0, List.replicate 16 0)) :=
  C10_shared_iv (fun _ b => b) [1] [2] (List.replicate 16 0)
    (Val.vobj [("sender_id", .vstr (str2b "alice")),
      ("recipient_id", .vstr (str2b "bob")),
      ("encrypted_payload", .vstr (str2b "EP")),
      ("encrypted_key", .vstr (str2b "EK"))]) rfl

/-- C2: evaluating the chat processor at a well-formed concrete
message shows the bug — the persisted row's two ciphertext-bearing
columns are `storage_blob` (the re-encrypted payload) and the
KMS-wrapped data key, while `encrypted_key_storage` (the re-encrypted
end-to-end wrapped key, computed at line 221) is persisted in neither
column: the first component is `false` (not contained), the others
confirm what the row does hold. -/
theorem C2_key_ciphertext_not_persisted :
    (process_message (fun _ b => b) (str2b "DK") (str2b "WRAPPEDDEK") (List.replicate 16 0)
        (Val.vobj [("sender_id", .vstr (str2b "alice")),
          ("recipient_id", .vstr (str2b "bob")),
          ("encrypted_payload", .vstr (str2b "EPAYLOAD")),
          ("encrypted_key", .vstr (str2b "EKEY")),
          ("message_id", .vstr (str2b "m1"))])).map (fun r =>
        ([(insertedRow r).2.2.2.1, (insertedRow r).2.2.2.2].contains r.encrypted_key_storage,
         [(insertedRow r).2.2.2.1, (insertedRow r).2.2.2.2].contains r.storage_blob,
         (insertedRow r).2.2.2.2 == b64encode (str2b "WRAPPEDDEK"))) =
      some (false, true, true) := rfl

/-- C1 counterexample: feeding the envelope produced by
`encrypt_message` directly to `decrypt_message` returns `None`
(not the plaintext): `decrypt_message` reads `data['payload']`, but
the envelope carries its ciphertext fields at top level, so the very
first dict access raises `KeyError`, caught by the `except`. -/
theorem C1_counterexample :
    ((encrypt_message (some (fun k => k)) (fun _ b => b) (List.replicate 32 7)
        (List.replicate 16 0) (str2b "bob") (str2b "hi")).bind
      (decrypt_message (fun k => some k) (fun _ b => b))) = none := rfl

/-- Evaluation of one processor iteration on the exact message shape
the websocket path publishes (envelope fields plus the appended
`sender_id`), with all four required fields non-empty. -/
theorem process_message_eval (E : List Nat → List Nat → List Nat)
    (dk ekb iv : List Nat) (rid ep ek sender : List Nat)
    (hrid : rid ≠ []) (hep : ep ≠ []) (hek : ek ≠ []) (hsender : sender ≠ []) :
    process_message E dk ekb iv
        (.vobj [("recipient_id", .vstr rid), ("encrypted_payload", .vstr ep),
                ("encrypted_key", .vstr ek), ("sender_id", .vstr sender)]) =
      some { message_id := none
             sender_id := .vstr sender
             recipient_id := .vstr rid
             content_bytes := iv ++ aesCbcEncrypt (E dk) iv (pkcs7pad ep)
             storage_blob := b64encode (iv ++ aesCbcEncrypt (E dk) iv (pkcs7pad ep))
             encrypted_dek_b64 := b64encode ekb
             key_content_bytes := iv ++ aesCbcEncrypt (E dk) iv (pkcs7pad ek)
             encrypted_key_storage := b64encode (iv ++ aesCbcEncrypt (E dk) iv (pkcs7pad ek))
             outgoing := .vobj [("recipient_id", .vstr rid), ("sender_id", .vstr sender),
               ("payload", .vobj [("encrypted_payload", .vstr ep),
                 ("encrypted_key", .vstr ek)])] } := by
  obtain ⟨r0, rtl, hr⟩ := List.exists_cons_of_ne_nil hrid
  obtain ⟨e0, etl, he⟩ := List.exists_cons_of_ne_nil hep
  obtain ⟨k0, ktl, hk⟩ := List.exists_cons_of_ne_nil hek
  obtain ⟨s0, stl, hs⟩ := List.exists_cons_of_ne_nil hsender
  subst hr he hk hs
  rfl

/-- Evaluation of `decrypt_message` on the outgoing-message shape down
to the two external-primitive calls it makes. -/
theorem decrypt_message_eval (rsaDec : List Nat → Option (List Nat))
    (D : List Nat → List Nat → List Nat) (rid sender ep ek : List Nat) :
    decrypt_message rsaDec D
        (.vobj [("recipient_id", .vstr rid), ("sender_id", .vstr sender),
          ("payload", .vobj [("encrypted_payload", .vstr ep),
            ("encrypted_key", .vstr ek)])]) =
      (rsaDec (b64decode ek)).bind (fun aes_key =>
        pkcs7unpad (aesCbcDecrypt (D aes_key) ((b64decode ep).take 16)
          ((b64decode ep).drop 16))) := rfl

/-- C1 amended: the end-to-end round trip holds along the path the
system actually runs: the client encrypts, the connection service
stamps the sender id, the chat processor republishes the outgoing
message, and `decrypt_message` applied to that outgoing message
recovers exactly the original plaintext — for every plaintext, every
AES key/IV draw and every RSA key pair (abstracted as a wrap/unwrap
pair that inverts), provided ids are non-empty.  The direct
composition `decrypt_message ∘ encrypt_message` instead fails on the
envelope shape (see the counterexample). -/
theorem C1_amended_roundtrip
    (E D : List Nat → List Nat → List Nat)
    (rsaEnc : List Nat → List Nat) (rsaDec : List Nat → Option (List Nat))
    (aes_key iv dk ekb iv2 : List Nat) (P recipient sender : List Nat)
    (hED : ∀ k blk, blk.length = 16 → D k (E k blk) = blk)
    (hElen : ∀ k blk, blk.length = 16 → (E k blk).length = 16)
    (hEb : ∀ k blk, (∀ x ∈ blk, x < 256) → ∀ x ∈ E k blk, x < 256)
    (hiv : iv.length = 16) (hivb : ∀ x ∈ iv, x < 256)
    (hP : ∀ x ∈ P, x < 256)
    (hrsa : rsaDec (rsaEnc aes_key) = some aes_key)
    (hkb : ∀ x ∈ rsaEnc aes_key, x < 256)
    (hkne : rsaEnc aes_key ≠ [])
    (hrecip : recipient ≠ []) (hsender : sender ≠ []) :
    ((encrypt_message (some rsaEnc) E aes_key iv recipient P).bind (fun env =>
      (websocket_publish sender (some env)).bind (fun inc =>
        (process_message E dk ekb iv2 inc).bind (fun r =>
          decrypt_message rsaDec D r.outgoing)))) = some P := by
  have hivne : iv ≠ [] := by
    intro h
    rw [h] at hiv
    simp at hiv
  have hCb : ∀ x ∈ aesCbcEncrypt (E aes_key) iv (pkcs7pad P), x < 256 :=
    aesCbcEncrypt_lt (E aes_key) (hEb aes_key) iv (pkcs7pad P) hivb (pkcs7pad_lt hP)
  have hepne : b64encode (iv ++ aesCbcEncrypt (E aes_key) iv (pkcs7pad P)) ≠ [] :=
    b64encode_ne_nil (fun h => hivne (List.append_eq_nil.mp h).1)
  have hekne : b64encode (rsaEnc aes_key) ≠ [] := b64encode_ne_nil hkne
  have h1 : encrypt_message (some rsaEnc) E aes_key iv recipient P =
      some (.vobj [("recipient_id", .vstr recipient),
        ("encrypted_payload",
          .vstr (b64encode (iv ++ aesCbcEncrypt (E aes_key) iv (pkcs7pad P)))),
        ("encrypted_key", .vstr (b64encode (rsaEnc aes_key)))]) := rfl
  rw [h1]
  simp only [optBind_some]
  have h2 : websocket_publish sender (some (.vobj [("recipient_id", .vstr recipient),
      ("encrypted_payload",
        .vstr (b64encode (iv ++ aesCbcEncrypt (E aes_key) iv (pkcs7pad P)))),
      ("encrypted_key", .vstr (b64encode (rsaEnc aes_key)))])) =
      some (.vobj [("recipient_id", .vstr recipient),
        ("encrypted_payload",
          .vstr (b64encode (iv ++ aesCbcEncrypt (E aes_key) iv (pkcs7pad P)))),
        ("encrypted_key", .vstr (b64encode (rsaEnc aes_key))),
        ("sender_id", .vstr sender)]) := rfl
  rw [h2]
  simp only [optBind_some]
  rw [process_message_eval E dk ekb iv2 recipient
    (b64encode (iv ++ aesCbcEncrypt (E aes_key) iv (pkcs7pad P)))
    (b64encode (rsaEnc aes_key)) sender hrecip hepne hekne hsender]
  simp only [optBind_some]
  show decrypt_message rsaDec D
      (.vobj [("recipient_id", .vstr recipient), ("sender_id", .vstr sender),
        ("payload", .vobj [("encrypted_payload",
            .vstr (b64encode (iv ++ aesCbcEncrypt (E aes_key) iv (pkcs7pad P)))),
          ("encrypted_key", .vstr (b64encode (rsaEnc aes_key)))])]) = some P
  rw [decrypt_message_eval]
  rw [b64_roundtrip _ hkb, hrsa]
  simp only [optBind_some]
  have hepdec : b64decode (b64encode (iv ++ aesCbcEncrypt (E aes_key) iv (pkcs7pad P))) =
      iv ++ aesCbcEncrypt (E aes_key) iv (pkcs7pad P) := by
    apply b64_roundtrip
    intro x hx
    rcases List.mem_append.mp hx with hx | hx
    · exact hivb x hx
    · exact hCb x hx
  rw [hepdec]
  rw [show (iv ++ aesCbcEncrypt (E aes_key) iv (pkcs7pad P)).take 16 = iv by
    rw [← hiv]; exact List.take_left iv _]
  rw [show (iv ++ aesCbcEncrypt (E aes_key) iv (pkcs7pad P)).drop 16 =
      aesCbcEncrypt (E aes_key) iv (pkcs7pad P) by
    rw [← hiv]; exact List.drop_left iv _]
  rw [aesCbc_roundtrip (E aes_key) (D aes_key) (hED aes_key) (hElen aes_key)
    iv (pkcs7pad P) hiv (pkcs7pad_length_mod P)]
  exact pkcs7_roundtrip P

/-- C1 witness: concrete instance of the amended round trip —
plaintext "hi", zero IV, identity-instantiated cipher primitives. -/
theorem C1_witness :
    ((encrypt_message (some (fun k => k)) (fun _ b => b) [7] (List.replicate 16 0)
        (str2b "bob") (str2b "hi")).bind (fun env =>
      (websocket_publish (str2b "alice") (some env)).bind (fun inc =>
        (process_message (fun _ b => b) [1] [2] (List.replicate 16 5) inc).bind (fun r =>
          decrypt_message (fun k => some k) (fun _ b => b) r.outgoing)))) =
      some (str2b "hi") :=
  C1_amended_roundtrip (fun _ b => b) (fun _ b => b) (fun k => k) (fun k => some k)
    [7] (List.replicate 16 0) [1] [2] (List.replicate 16 5)
    (str2b "hi") (str2b "bob") (str2b "alice")
    (fun _ _ _ => rfl) (fun _ _ h => h) (fun _ _ h => h)
    (by decide) (by decide) (by decide) rfl (by decide) (by decide)
    (by decide) (by decide)

end WhatsAppSim
